import Mathlib

/-!
# Velox — shallow embedding and verification of the configuration registry
# and the worker-pool core

This file embeds, in Lean 4, the parts of the Velox repository that the
verified properties refer to:

* `src/src/util.cpp` / `src/include/util.hpp` — name validation and the
  stream-based scalar conversion `velox::util::convert`;
* `src/include/config.hpp` — the `TypeConverter` codec family,
  `ConfigVar` (value cell plus change listeners) and the `Config` registry;
* `src/src/config.cpp` — the YAML tree flattener `listAllMembers`,
  `loadFromYaml` and the mtime-cached `loadFromConfDir`;
* `src/include/threadpool.hpp` / `src/src/threadpool.cpp` — the
  `ThreadPoolConfig` record and the `ThreadPool` state machine.

C++ `std::string` values are modelled as `List Char`; machine integers
(`std::size_t`, `uint64_t`) as `Nat` (no overflow is exercised by any claim);
`std::chrono` durations as their millisecond counts; time points as `Int`
(so that `construction time - keep_alive` stays representable).  Fallible
C++ code (stream extraction failure, thrown exceptions) is modelled with
`Option` / `Except`.  Side-effecting callbacks are modelled by traces: an
operation that invokes callbacks returns the list of invocation events.

Where the C++ iterates a `std::unordered_map` / `std::unordered_set`, the
iteration order is unspecified by the source; such iterations are modelled
by an explicit enumeration parameter constrained to be a permutation of the
container's contents.
-/

set_option maxHeartbeats 1000000

namespace Velox

/-- Model of C++ `std::string`: a list of characters. -/
abbrev Str := List Char

/-! ## `velox::util::isValidName` (src/src/util.cpp)

```cpp
bool isValidName(const std::string& name) noexcept {
  if (name.empty()) return false;
  return std::all_of(name.begin(), name.end(),
      [](char c) { return ((c >= 'a' && c <= 'z') || (c >= '0' && c <= '9')
                            || c == '.' || c == '_'); });
}
```
-/

/-- The per-character predicate of `isValidName`. -/
def isValidChar (c : Char) : Bool :=
  (('a' ≤ c && c ≤ 'z') || ('0' ≤ c && c ≤ '9') || c == '.' || c == '_')

/-- `velox::util::isValidName`: non-empty and every character in `[0-9a-z_.]`. -/
def isValidName (s : Str) : Bool :=
  !s.isEmpty && s.all isValidChar

/-! ## `velox::util::convert` (src/include/util.hpp)

```cpp
template<typename T, typename F> T convert(const F& from_value) {
  std::stringstream ss;  ss << from_value;  T to_value{};  ss >> to_value;
  if (ss.fail() || !ss.eof()) throw std::runtime_error("convert failed: invalid format");
  return to_value;
}
```

Stream insertion/extraction is modelled character-exactly for the types the
claims exercise: `std::string` and unsigned integers.
-/

/-- The whitespace characters `operator>>` skips. -/
def isSpaceChar (c : Char) : Bool :=
  c == ' ' || c == '\t' || c == '\n' || c == '\x0b' || c == '\x0c' || c == '\r'

/-- `operator>>` into `std::string`: skip leading whitespace, then extract the
maximal run of non-whitespace characters; sets `failbit` (here: `none`) when
that run is empty.  Returns the token and the unread remainder of the
buffer. -/
def extractToken (s : Str) : Option (Str × Str) :=
  let s' := s.dropWhile isSpaceChar
  let tok := s'.takeWhile (fun c => !isSpaceChar c)
  if tok.isEmpty then none else some (tok, s'.dropWhile (fun c => !isSpaceChar c))

/-- `convert<std::string>` applied to a `std::string`: insert the string into
the stream, extract one token, and require the whole buffer consumed
(`ss.fail() || !ss.eof()` is the error condition). -/
def convertStrStr (s : Str) : Option Str :=
  match extractToken s with
  | none => none
  | some (tok, rest) => if rest.isEmpty then some tok else none

/-- Is `c` a decimal digit? -/
def isDigitChar (c : Char) : Bool := '0' ≤ c && c ≤ '9'

/-- Numeric value of a digit character. -/
def digitVal (c : Char) : Nat := c.toNat - 48

/-- `operator>>` into an unsigned integer: skip whitespace, then read the
maximal run of decimal digits; fails when that run is empty.  (Sign handling
and overflow are not exercised by the round-trip inputs, which are produced
by `operator<<`.) -/
def extractNat (s : Str) : Option (Nat × Str) :=
  let s' := s.dropWhile isSpaceChar
  let ds := s'.takeWhile isDigitChar
  if ds.isEmpty then none
  else some (ds.foldl (fun a c => 10 * a + digitVal c) 0, s'.dropWhile isDigitChar)

/-- `convert<T>` applied to a `std::string` for an unsigned integral `T`. -/
def convertStrNat (s : Str) : Option Nat :=
  match extractNat s with
  | none => none
  | some (n, rest) => if rest.isEmpty then some n else none

/-- The character for digit `d`. -/
def digitChar (d : Nat) : Char := Char.ofNat (48 + d)

/-- `operator<<` for an unsigned integer: its decimal representation. -/
def natToChars (n : Nat) : Str :=
  if n = 0 then ['0'] else ((Nat.digits 10 n).map digitChar).reverse

/-- `convert<std::string>` applied to an unsigned integer: `ss << n` writes the
decimal form, `ss >> out` reads it back as one token with the
full-consumption check. -/
def convertNatStr (n : Nat) : Option Str :=
  convertStrStr (natToChars n)

/-! ## `ConfigVar` (src/include/config.hpp)

A typed configuration cell.  The callback map `m_cbs` is a
`std::unordered_map<uint64_t, on_change_cb>`; the callbacks themselves are
opaque side-effecting closures, so the model keeps only their ids and
records invocations as a trace of `(id, old value, new value)` events.
`cbIds` lists the keys currently present in `m_cbs`. -/
structure ConfigVar (α : Type) where
  name : Str
  description : Str
  val : α
  cbIds : List Nat

/-- `ConfigVar::setValue`:

```cpp
void setValue(const T& value) {
  if (value == m_val) return;
  T old_val = m_val;  m_val = value;
  for (const auto& [id, cb] : m_cbs) cb(old_val, m_val);
}
```

`eq` is the type's `operator==`.  Iterating a `std::unordered_map` visits
every entry exactly once in an order the source leaves unspecified, so the
iteration is passed in as an enumeration `e` of the ids; a permitted
enumeration is any permutation of `v.cbIds` (see `C1` below, which carries
that side condition).  Returns the updated variable and the trace of
callback invocations. -/
def setValue {α : Type} (eq : α → α → Bool) (v : ConfigVar α) (value : α)
    (e : List Nat) : ConfigVar α × List (Nat × α × α) :=
  if eq value v.val then (v, [])
  else ({ v with val := value }, e.map (fun i => (i, v.val, value)))

/-! ## `ThreadPoolConfig` (src/include/threadpool.hpp) -/

/-- `velox::threadpool::ThreadPoolConfig`, with durations as millisecond
counts.  The member initializers are the C++ defaults. -/
structure ThreadPoolConfig where
  max_task_count : Nat := 0
  core_thread_count : Nat := 1
  max_thread_count : Nat := 8
  keep_alive_time : Nat := 5000
  monitor_interval : Nat := 200
  enable_dynamic_scaling : Bool := true
deriving DecidableEq, Repr

/-- `ThreadPoolConfig::operator==`: compares the five count/duration fields;
`enable_dynamic_scaling` does not appear in the comparison. -/
def tpcEq (a b : ThreadPoolConfig) : Bool :=
  a.max_task_count == b.max_task_count &&
  a.core_thread_count == b.core_thread_count &&
  a.max_thread_count == b.max_thread_count &&
  a.keep_alive_time == b.keep_alive_time &&
  a.monitor_interval == b.monitor_interval

/-! ## `ThreadPool` (src/include/threadpool.hpp, src/src/threadpool.cpp)

The pool's shared state, with the concurrency collapsed to a sequential
transition system: each public operation (and each worker-loop step) is a
function on the whole state, which matches the source's locking discipline —
every one of these bodies runs under the pool's status lock (or, for the
worker steps, under the queue lock).  Tasks are opaque, so the queue holds
task ids.  Clock readings are passed in as an explicit `now : Int`. -/

/-- `ThreadPool::Status`. -/
inductive PStatus where
  | RUNNING | PAUSED | SHUTDOWN | TERMINATING | TERMINATED
deriving DecidableEq, Repr

/-- `ThreadPool::WorkerThread::Status`. -/
inductive WStatus where
  | RUNNING | PAUSED | TERMINATING | TERMINATED
deriving DecidableEq, Repr

/-- A worker thread's observable fields: its status and
`m_last_active_time`. -/
structure Worker where
  status : WStatus
  lastActive : Int
deriving DecidableEq, Repr

/-- The pool state: status, task queue (`m_task_queue`), its cap
(`m_max_task_count`), the live worker list (`m_worker_list`), the zombie
list (`m_zombie_workers`), `m_busy_thread_count`, `m_terminating_flag`, the
capacity atomics, and whether the monitor thread is live. -/
structure Pool where
  status : PStatus
  taskQueue : List Nat
  maxTaskCount : Nat
  workers : List Worker
  zombies : List Worker
  busyCount : Nat
  terminatingFlag : Bool
  coreThreadCount : Nat
  maxThreadCount : Nat
  keepAliveTime : Nat
  monitorInterval : Nat
  monitorActive : Bool
deriving DecidableEq, Repr

/-- `WorkerThread::WorkerThread`: a fresh worker starts RUNNING with
`m_last_active_time = now - keep_alive_time`, so an immediately-idle worker
is already a shrink candidate. -/
def newWorker (now : Int) (keepAlive : Nat) : Worker :=
  { status := .RUNNING, lastActive := now - (keepAlive : Int) }

/-- `ThreadPool::ThreadPool(config)`: status RUNNING, monitor launched iff
dynamic scaling is enabled, `core_thread_count` workers spawned; the
`enable_dynamic_scaling` flag itself is not stored anywhere else. -/
def mkPool (now : Int) (config : ThreadPoolConfig) : Pool :=
  { status := .RUNNING
    taskQueue := []
    maxTaskCount := config.max_task_count
    workers := List.replicate config.core_thread_count (newWorker now config.keep_alive_time)
    zombies := []
    busyCount := 0
    terminatingFlag := false
    coreThreadCount := config.core_thread_count
    maxThreadCount := config.max_thread_count
    keepAliveTime := config.keep_alive_time
    monitorInterval := config.monitor_interval
    monitorActive := config.enable_dynamic_scaling }

/-- `ThreadPool::isTaskQueueFull`: `max == 0` means unbounded, otherwise full
when `size >= max`. -/
def isTaskQueueFull (p : Pool) : Bool :=
  if p.maxTaskCount = 0 then false
  else decide (p.taskQueue.length ≥ p.maxTaskCount)

/-- The two failure modes of `ThreadPool::submit`. -/
inductive SubmitError where
  | cannotSubmit | queueFull
deriving DecidableEq, Repr

/-- `ThreadPool::submit` (admission part): reject unless RUNNING or PAUSED,
reject when the queue is full, otherwise enqueue at the back. -/
def submit (p : Pool) (task : Nat) : Except SubmitError Pool :=
  if p.status ≠ .RUNNING ∧ p.status ≠ .PAUSED then .error .cannotSubmit
  else if isTaskQueueFull p then .error .queueFull
  else .ok { p with taskQueue := p.taskQueue ++ [task] }

/-- `WorkerThread::pause`: RUNNING → PAUSED, otherwise no-op. -/
def pauseWorker (w : Worker) : Worker :=
  if w.status = .RUNNING then { w with status := .PAUSED } else w

/-- `WorkerThread::resume`: PAUSED → RUNNING (releasing the pause
semaphore), otherwise no-op. -/
def resumeWorker (w : Worker) : Worker :=
  if w.status = .PAUSED then { w with status := .RUNNING } else w

/-- `WorkerThread::terminate`: RUNNING/PAUSED → TERMINATING (releasing the
pause semaphore when PAUSED), otherwise no-op. -/
def terminateWorker (w : Worker) : Worker :=
  if w.status = .RUNNING ∨ w.status = .PAUSED then { w with status := .TERMINATING } else w

/-- `ThreadPool::pause`: when RUNNING, go PAUSED and pause every live
worker. -/
def pause (p : Pool) : Pool :=
  if p.status = .RUNNING then
    { p with status := .PAUSED, workers := p.workers.map pauseWorker }
  else p

/-- `ThreadPool::resumeWithoutStatusLock`: when PAUSED, go RUNNING and
resume every live worker. -/
def resumeWithoutStatusLock (p : Pool) : Pool :=
  if p.status = .PAUSED then
    { p with status := .RUNNING, workers := p.workers.map resumeWorker }
  else p

/-- `ThreadPool::resume`: take the status lock and delegate. -/
def resume (p : Pool) : Pool := resumeWithoutStatusLock p

/-- `ThreadPool::increaseThreadCountWithoutStatusLock`: throws a logic error
unless RUNNING or PAUSED, otherwise appends `count` fresh workers. -/
def increaseThreadCountWithoutStatusLock (now : Int) (count : Nat) (p : Pool) :
    Except Unit Pool :=
  if p.status ≠ .RUNNING ∧ p.status ≠ .PAUSED then .error ()
  else .ok { p with workers := p.workers ++ List.replicate count (newWorker now p.keepAliveTime) }

/-- `ThreadPool::decreaseThreadCountWithoutStatusLock`: throws a logic error
unless RUNNING or PAUSED; otherwise clips `count` to the live count, marks
that many workers TERMINATING from the tail of the live list, and splices
them (order preserved) onto the end of the zombie list. -/
def decreaseThreadCountWithoutStatusLock (count : Nat) (p : Pool) : Except Unit Pool :=
  if p.status ≠ .RUNNING ∧ p.status ≠ .PAUSED then .error ()
  else
    let d := min count p.workers.length
    let keep := p.workers.take (p.workers.length - d)
    let gone := (p.workers.drop (p.workers.length - d)).map terminateWorker
    .ok { p with workers := keep, zombies := p.zombies ++ gone }

/-- `ThreadPool::setMaxTaskCount`: a plain atomic store. -/
def setMaxTaskCount (count : Nat) (p : Pool) : Pool :=
  { p with maxTaskCount := count }

/-- `ThreadPool::getThreadCount`. -/
def getThreadCount (p : Pool) : Nat := p.workers.length

/-- `ThreadPool::getThreadPoolConfig`: aggregate-initializes a
`ThreadPoolConfig` from the five atomics; `enable_dynamic_scaling` is not
among the initializers, so it takes its member default (`true`). -/
def getThreadPoolConfig (p : Pool) : ThreadPoolConfig :=
  { max_task_count := p.maxTaskCount
    core_thread_count := p.coreThreadCount
    max_thread_count := p.maxThreadCount
    keep_alive_time := p.keepAliveTime
    monitor_interval := p.monitorInterval }

/-- `ThreadPool::shutdown`.  Phase 1 (under the status lock): PAUSED falls
through `resumeWithoutStatusLock` into the RUNNING case (the deliberate
fallthrough), RUNNING goes to SHUTDOWN, every other status returns at once.
Phase 2 waits on `m_task_queue_empty_cv` until the workers have drained the
queue; the wait's postcondition — the queue observed empty — is modelled
directly.  Phase 3 goes TERMINATING, sets the terminating flag, clears the
live list (joining every worker), clears the zombie list, joins the monitor
thread, and stores TERMINATED. -/
def shutdown (p : Pool) : Pool :=
  match p.status with
  | .PAUSED | .RUNNING =>
    let p1 := resumeWithoutStatusLock p
    { p1 with status := .TERMINATED, taskQueue := [], workers := [], zombies := [],
              terminatingFlag := true, monitorActive := false }
  | _ => p

/-- `ThreadPool::adjustThreadCount` (one monitor tick).  Requires
RUNNING/PAUSED; reads live/busy/queue-size; the grow rule (RUNNING only)
adds exactly one worker and returns early; otherwise the shrink rule walks
the `live - core` tail workers, counts those idle at least `keep_alive`,
and decreases by that count when positive. -/
def adjustThreadCount (now : Int) (p : Pool) : Pool :=
  if p.status ≠ .RUNNING ∧ p.status ≠ .PAUSED then p
  else
    let currentThreads := getThreadCount p
    let busyThreads := p.busyCount
    let queueSize := p.taskQueue.length
    if p.status = .RUNNING ∧ busyThreads = currentThreads ∧ queueSize > 0 ∧
        currentThreads < p.maxThreadCount then
      match increaseThreadCountWithoutStatusLock now 1 p with
      | .ok q => q
      | .error _ => p
    else
      if currentThreads > p.coreThreadCount ∧ busyThreads < currentThreads then
        let nonCoreCount := currentThreads - p.coreThreadCount
        let timeoutCount :=
          ((p.workers.reverse.take nonCoreCount).filter
            (fun w => decide (now - w.lastActive ≥ (p.keepAliveTime : Int)))).length
        if timeoutCount > 0 then
          match decreaseThreadCountWithoutStatusLock timeoutCount p with
          | .ok q => q
          | .error _ => p
        else p
      else p

/-- One worker-loop dequeue (stage 2 of `WorkerThread::run`, under the queue
lock): pop the front task and become busy.  Guarded on a non-empty queue
(the wake predicate). -/
def workerDequeue (p : Pool) : Pool :=
  if p.taskQueue.isEmpty then p
  else { p with taskQueue := p.taskQueue.tail, busyCount := p.busyCount + 1 }

/-- End of stage 3 of `WorkerThread::run`: the busy count drops back. -/
def workerFinish (p : Pool) : Pool :=
  { p with busyCount := p.busyCount - 1 }

/-- The labels of the pool transition system: every public mutating
operation plus the worker-loop steps.  An operation that throws leaves the
state unchanged (the throw happens before any mutation). -/
inductive Op where
  | opSubmit (task : Nat)
  | opPause
  | opResume
  | opShutdown
  | opIncrease (now : Int) (count : Nat)
  | opDecrease (count : Nat)
  | opSetMax (count : Nat)
  | opAdjust (now : Int)
  | opWorkerDequeue
  | opWorkerFinish
deriving DecidableEq, Repr

/-- Apply one labelled operation to the pool state. -/
def applyOp (op : Op) (p : Pool) : Pool :=
  match op with
  | .opSubmit t => match submit p t with | .ok q => q | .error _ => p
  | .opPause => pause p
  | .opResume => resume p
  | .opShutdown => shutdown p
  | .opIncrease now c =>
      match increaseThreadCountWithoutStatusLock now c p with | .ok q => q | .error _ => p
  | .opDecrease c =>
      match decreaseThreadCountWithoutStatusLock c p with | .ok q => q | .error _ => p
  | .opSetMax c => setMaxTaskCount c p
  | .opAdjust now => adjustThreadCount now p
  | .opWorkerDequeue => workerDequeue p
  | .opWorkerFinish => workerFinish p

/-- Reachability from an initial state by a sequence of operations. -/
def Reachable (init p : Pool) : Prop :=
  ∃ ops : List Op, p = ops.foldl (fun s o => applyOp o s) init

/-! ## The `Config` registry (src/include/config.hpp)

`Config::s_datas` maps names to type-erased `ConfigVarBase` pointers.  The
type erasure plus `dynamic_pointer_cast` is modelled by a tag from a small
universe of declared types: the cast back to `ConfigVar<T>` succeeds exactly
when the stored tag is `T`'s. -/

/-- Declared value types that appear in the repository. -/
inductive VType where
  | tSizeT | tString | tVecSizeT | tThreadPoolConfig
deriving DecidableEq, Repr

/-- The Lean denotation of each declared type. -/
@[reducible]
def VType.interp : VType → Type
  | .tSizeT => Nat
  | .tString => Str
  | .tVecSizeT => List Nat
  | .tThreadPoolConfig => ThreadPoolConfig

/-- A registered variable behind the type-erased base pointer: its declared
type tag, name, description and current value. -/
structure Entry where
  ty : VType
  name : Str
  description : Str
  val : ty.interp

/-- The registry `Config::s_datas` (a `std::unordered_map` keyed by name;
only lookup and insert are exercised, so an association list with unique
keys models it). -/
abbrev Registry := List (Str × Entry)

/-- `getDatas().find(name)`. -/
def lookupVar (r : Registry) (name : Str) : Option Entry :=
  (r.find? (fun kv => kv.1 == name)).map Prod.snd

/-- `Config::getOrCreateConfigVarPtr<T>(name, default_value, description)`:

* name present, tag matches `T` — return the existing handle (default and
  description are ignored), registry untouched;
* name present, tag differs — the `dynamic_pointer_cast` fails: log, return
  a null handle (`ok none`), registry untouched;
* name absent and invalid — throw `std::invalid_argument(name)`
  (`error name`);
* name absent and valid — create the variable with the default value,
  register it, and return it.

The result pairs the call's outcome with the registry afterwards. -/
def getOrCreateConfigVarPtr (ty : VType) (name : Str) (defaultValue : ty.interp)
    (description : Str) (r : Registry) : Except Str (Option Entry) × Registry :=
  match lookupVar r name with
  | some e => if e.ty = ty then (.ok (some e), r) else (.ok none, r)
  | none =>
    if !isValidName name then (.error name, r)
    else
      let entry : Entry := { ty := ty, name := name, description := description, val := defaultValue }
      (.ok (some entry), (name, entry) :: r)

/-! ## The YAML tree flattener (src/src/config.cpp, `listAllMembers`)

YAML nodes, restricted to the shapes the flattener distinguishes: scalars,
sequences, and maps (`kv.first.Scalar()` keys in document order). -/

/-- A YAML node. -/
inductive YNode where
  | scalar (s : Str)
  | yseq (elems : List YNode)
  | ymap (kvs : List (Str × YNode))

/-- `prefix + "." + key`, or just `key` when the prefix is empty (the
`new_prefix` construction in `listAllMembers`). -/
def dotConcat (pfx key : Str) : Str :=
  if pfx.isEmpty then key else pfx ++ '.' :: key

mutual
/-- `listAllMembers(prefix, node, output)`: an invalid non-empty prefix is
logged and cut off (nothing emitted, nothing descended); a non-empty prefix
emits `(prefix, node)`; a map node recurses into each key-value pair with
the extended prefix.  Sequences and scalars are not descended.  The output
accumulator is returned (in emission order). -/
def listAllMembers (pfx : Str) (node : YNode) : List (Str × YNode) :=
  if !pfx.isEmpty && !isValidName pfx then []
  else
    (if pfx.isEmpty then [] else [(pfx, node)]) ++
    (match node with
     | .ymap kvs => listAllMembersKvs pfx kvs
     | _ => [])

/-- The `for (const auto& kv : node)` loop of `listAllMembers`. -/
def listAllMembersKvs (pfx : Str) (kvs : List (Str × YNode)) : List (Str × YNode) :=
  match kvs with
  | [] => []
  | (k, v) :: rest => listAllMembers (dotConcat pfx k) v ++ listAllMembersKvs pfx rest
end

/-! ## `Config::loadFromConfDir` (src/src/config.cpp)

The filesystem is abstracted to the observations the loop makes of each
file: its path (an id), the result of `fs::last_write_time` (converted with
`toUnixTimestamp`), and whether `YAML::LoadFile` + `loadFromYaml` completes
without throwing.  The timestamp cache `file_last_write_times` maps paths to
the last observed stamp (`operator[]` default-constructs 0 for unknown
paths). -/

/-- One `.yml` file as the loader observes it. -/
structure ConfFile where
  path : Nat
  statResult : Option Nat
  parseOk : Bool
deriving DecidableEq, Repr

/-- The `file_last_write_times` cache. -/
abbrev TsCache := List (Nat × Nat)

/-- Cache lookup; unknown paths read as 0 (`std::unordered_map::operator[]`
value-initializes). -/
def cacheGet (c : TsCache) (p : Nat) : Nat :=
  (((c.find? (fun kv => kv.1 == p)).map Prod.snd).getD 0)

/-- Cache update through the reference `operator[]` returns. -/
def cacheSet (c : TsCache) (p v : Nat) : TsCache := (p, v) :: c

/-- What happened to one file during a `loadFromConfDir` pass. -/
inductive FileAction where
  | statFailed | skippedUnchanged | loaded | parseFailed
deriving DecidableEq, Repr

/-- The body of the `loadFromConfDir` loop for one file: a stat failure is
logged and skipped (cache untouched); an unchanged mtime is skipped unless
`force`; otherwise the cache entry is set to the current stamp BEFORE the
parse, and a parse failure is logged and skipped. -/
def processFile (force : Bool) (cache : TsCache) (f : ConfFile) : TsCache × FileAction :=
  match f.statResult with
  | none => (cache, .statFailed)
  | some ts =>
    let cached := cacheGet cache f.path
    if !force && ts == cached then (cache, .skippedUnchanged)
    else
      let cache' := cacheSet cache f.path ts
      if f.parseOk then (cache', .loaded) else (cache', .parseFailed)

/-- `Config::loadFromConfDir` over the enumerated file list: every file is
visited in order regardless of what happened to the previous ones.  Returns
the final cache and the per-file actions. -/
def loadFromConfDir (force : Bool) (files : List ConfFile) (cache : TsCache) :
    TsCache × List (Nat × FileAction) :=
  match files with
  | [] => (cache, [])
  | f :: rest =>
    let r := processFile force cache f
    let rec' := loadFromConfDir force rest r.1
    (rec'.1, (f.path, r.2) :: rec'.2)

/-! ## Container and record codecs (src/include/config.hpp `TypeConverter`
partial specializations, src/src/threadpool.cpp `ThreadPoolConfig`
specialization)

The specializations build a `YAML::Node` from the element strings and let
the emitter print it, or parse the text and re-dump each child for the
element codec.  The text form is modelled character-exactly on the fragment
the emitter produces for flat containers of plain scalars: a block sequence
prints as `- e` lines joined by newlines (an empty sequence as `[]`), a
block map as `k: v` lines (an empty map as `{}`). -/

/-- The per-element conversion loop shared by the container codecs: convert
each element, propagating a conversion exception (`none`). -/
def mapOption {α β : Type} (f : α → Option β) : List α → Option (List β)
  | [] => some []
  | a :: t =>
    match f a, mapOption f t with
    | some b, some bt => some (b :: bt)
    | _, _ => none

/-- Emitter output for a list of lines. -/
def dumpLines (lines : List Str) : Str := (['\n'] : Str).intercalate lines

/-- Split a buffer back into lines. -/
def splitLines (s : Str) : List Str := s.splitOn '\n'

/-- Block-style emission of a sequence of plain scalar entries
(`TypeConverter<std::vector<T>, std::string>` after the per-element
conversion). -/
def dumpSeq (elems : List Str) : Str :=
  if elems.isEmpty then ['[', ']'] else dumpLines (elems.map (fun e => '-' :: ' ' :: e))

/-- One `- e` line of a block sequence. -/
def parseSeqLine (line : Str) : Option Str :=
  match line with
  | '-' :: ' ' :: rest => some rest
  | _ => none

/-- `YAML::Load` of a block sequence of plain scalars, returning the
per-element scalar strings (what `ss << elem` re-dumps for the element
codec); `none` models a YAML parse exception. -/
def parseSeq (s : Str) : Option (List Str) :=
  if s = ['[', ']'] then some []
  else mapOption parseSeqLine (splitLines s)

/-- `TypeConverter<std::vector<std::size_t>, std::string>` (also
`std::list`): convert each element with the scalar codec and emit the
sequence. -/
def vecNatToString (v : List Nat) : Option Str :=
  (mapOption convertNatStr v).map dumpSeq

/-- `TypeConverter<std::string, std::vector<std::size_t>>` (also
`std::list`): parse the sequence and convert each element back. -/
def stringToVecNat (s : Str) : Option (List Nat) :=
  (parseSeq s).bind (fun es => mapOption convertStrNat es)

/-- Ordered insertion as `std::set` / `std::map` `insert` performs it:
find the position by the strict order `lt`, keep the existing element when
an equivalent one is already present. -/
def insertOrdered {α : Type} (lt : α → α → Bool) (a : α) : List α → List α
  | [] => [a]
  | b :: t => if lt a b then a :: b :: t else if lt b a then b :: insertOrdered lt a t else b :: t

/-- `std::less<std::size_t>`. -/
def natLt (a b : Nat) : Bool := decide (a < b)

/-- `TypeConverter<std::set<std::size_t>, std::string>`: a `std::set` is
modelled by its iteration order, the strictly sorted list of its
elements. -/
def setNatToString (s : List Nat) : Option Str := vecNatToString s

/-- `TypeConverter<std::string, std::set<std::size_t>>`: parse the
sequence and `insert` the elements one by one. -/
def stringToSetNat (s : Str) : Option (List Nat) :=
  (stringToVecNat s).map (fun l => l.foldl (fun acc a => insertOrdered natLt a acc) [])

/-- An `std::unordered_set` keeps one copy of each element in an
unspecified iteration order; `e` is the enumeration the dump walks. -/
def usetNatToString (e : List Nat) : Option Str := vecNatToString e

/-- Reading back an `std::unordered_set`: the multiset of parsed
elements (insertion into the hash set is order-insensitive). -/
def stringToUSetNat (s : Str) : Option (Multiset Nat) :=
  (stringToVecNat s).map (fun l => Multiset.ofList l)

/-- `std::less<std::string>`: lexicographic comparison. -/
def strLt : Str → Str → Bool
  | [], [] => false
  | [], _ :: _ => true
  | _ :: _, [] => false
  | a :: as, b :: bs => if a < b then true else if b < a then false else strLt as bs

/-- Block-style emission of a flat map of plain scalars. -/
def dumpMapPairs (kvs : List (Str × Str)) : Str :=
  if kvs.isEmpty then ['{', '}'] else dumpLines (kvs.map (fun kv => kv.1 ++ ':' :: ' ' :: kv.2))

/-- One `k: v` line of a block map. -/
def parseMapLine (line : Str) : Option (Str × Str) :=
  match line.dropWhile (fun c => c ≠ ':') with
  | ':' :: ' ' :: rest => some (line.takeWhile (fun c => c ≠ ':'), rest)
  | _ => none

/-- `YAML::Load` of a flat block map, yielding `(key.Scalar(), re-dumped
value)` pairs in document order. -/
def parseMapPairs (s : Str) : Option (List (Str × Str)) :=
  if s = ['{', '}'] then some []
  else mapOption parseMapLine (splitLines s)

/-- Key order of `std::map<std::string, T>` entries. -/
def keyLt (a b : Str × Nat) : Bool := strLt a.1 b.1

/-- `TypeConverter<std::map<std::string, std::size_t>, std::string>`: a
`std::map` is modelled by its iteration order, the list of its entries
strictly sorted by key. -/
def mapNatToString (m : List (Str × Nat)) : Option Str :=
  (mapOption (fun kv => (convertNatStr kv.2).map (fun v => (kv.1, v))) m).map dumpMapPairs

/-- `TypeConverter<std::string, std::map<std::string, std::size_t>>`:
parse the map, convert each value, and `insert` the pairs one by one. -/
def stringToMapNat (s : Str) : Option (List (Str × Nat)) :=
  ((parseMapPairs s).bind
      (fun kvs => mapOption (fun kv => (convertStrNat kv.2).map (fun v => (kv.1, v))) kvs)).map
    (fun l => l.foldl (fun acc kv => insertOrdered keyLt kv acc) [])

/-- `std::unordered_map` emission over the enumeration `e` the dump
walks. -/
def umapNatToString (e : List (Str × Nat)) : Option Str := mapNatToString e

/-- Reading back an `std::unordered_map`: the multiset of parsed
entries. -/
def stringToUMapNat (s : Str) : Option (Multiset (Str × Nat)) :=
  ((parseMapPairs s).bind
      (fun kvs => mapOption (fun kv => (convertStrNat kv.2).map (fun v => (kv.1, v))) kvs)).map
    (fun l => Multiset.ofList l)

/-- `TypeConverter<ThreadPoolConfig, std::string>`
(src/src/threadpool.cpp): emit the five count/duration fields, in
assignment order; `enable_dynamic_scaling` is not serialized. -/
def tpcToString (c : ThreadPoolConfig) : Str :=
  dumpMapPairs
    [("max_task_count".toList, natToChars c.max_task_count),
     ("core_thread_count".toList, natToChars c.core_thread_count),
     ("max_thread_count".toList, natToChars c.max_thread_count),
     ("keep_alive_time".toList, natToChars c.keep_alive_time),
     ("monitor_interval".toList, natToChars c.monitor_interval)]

/-- `node["key"]` lookup on a parsed flat map. -/
def yamlFindKey (kvs : List (Str × Str)) (k : Str) : Option Str :=
  (kvs.find? (fun kv => kv.1 == k)).map Prod.snd

/-- `node["key"].as<std::size_t>()` on a plain scalar (numeric parse; a
conversion failure throws). -/
def asSizeT (s : Str) : Option Nat := convertStrNat s

/-- `TypeConverter<std::string, ThreadPoolConfig>`
(src/src/threadpool.cpp): start from the defaulted record; each key that
`IsDefined()` overrides its field. -/
def stringToTpc (s : Str) : Option ThreadPoolConfig := do
  let kvs ← parseMapPairs s
  let d : ThreadPoolConfig := {}
  let v1 ← match yamlFindKey kvs "max_task_count".toList with
           | none => some d.max_task_count
           | some v => asSizeT v
  let v2 ← match yamlFindKey kvs "core_thread_count".toList with
           | none => some d.core_thread_count
           | some v => asSizeT v
  let v3 ← match yamlFindKey kvs "max_thread_count".toList with
           | none => some d.max_thread_count
           | some v => asSizeT v
  let v4 ← match yamlFindKey kvs "keep_alive_time".toList with
           | none => some d.keep_alive_time
           | some v => asSizeT v
  let v5 ← match yamlFindKey kvs "monitor_interval".toList with
           | none => some d.monitor_interval
           | some v => asSizeT v
  pure { max_task_count := v1, core_thread_count := v2, max_thread_count := v3,
         keep_alive_time := v4, monitor_interval := v5 }

/-! ## Derived notions used by the verified properties -/

/-- A plain token: non-empty and free of stream whitespace.  Such strings
survive `operator<<` / `operator>>` unchanged. -/
def isPlainToken (s : Str) : Bool := !s.isEmpty && s.all (fun c => !isSpaceChar c)

/-- The invariant claimed for the task queue: when a cap is set, the queue
never holds more than the cap. -/
def QueueBound (p : Pool) : Prop :=
  p.maxTaskCount ≠ 0 → p.taskQueue.length ≤ p.maxTaskCount

/-- The grow rule's enabling condition (§ adjustThreadCount). -/
def GrowConds (p : Pool) : Prop :=
  p.status = .RUNNING ∧ p.busyCount = p.workers.length ∧ 0 < p.taskQueue.length ∧
  p.workers.length < p.maxThreadCount

/-! ## Theorems -/

/-- **C10.** For every pool, `getThreadPoolConfig` returns a config whose
`enable_dynamic_scaling` field is always `true`, whether or not the pool was
constructed with dynamic scaling: only the five count/duration fields are
copied from the pool's atomics, and the flag takes its member default. -/
theorem C10_config_flag_defaulted (p : Pool) (now : Int) (config : ThreadPoolConfig) :
    (getThreadPoolConfig p).enable_dynamic_scaling = true ∧
    getThreadPoolConfig (mkPool now config) =
      { max_task_count := config.max_task_count
        core_thread_count := config.core_thread_count
        max_thread_count := config.max_thread_count
        keep_alive_time := config.keep_alive_time
        monitor_interval := config.monitor_interval
        enable_dynamic_scaling := true } :=
  ⟨rfl, rfl⟩

/-- **C9.** `ThreadPoolConfig`'s `operator==` ignores
`enable_dynamic_scaling`: two configs differing only in that flag compare
equal, so `setValue` with such a config is a no-op that fires no listener
and leaves the stored value unchanged. -/
theorem C9_eq_ignores_scaling_flag (c : ThreadPoolConfig) (b : Bool)
    (v : ConfigVar ThreadPoolConfig) (e : List Nat) :
    tpcEq { c with enable_dynamic_scaling := b } c = true ∧
    setValue tpcEq v { v.val with enable_dynamic_scaling := b } e = (v, []) := by
  constructor
  · simp [tpcEq]
  · simp [setValue, tpcEq]

/-- **C6.** On a RUNNING or PAUSED pool, `shutdown` (resuming a PAUSED pool
first) drains the queue and leaves no live worker, no zombie, an empty
queue and status TERMINATED; on any other status it returns immediately
without changing anything, so repeated `shutdown` calls succeed silently. -/
theorem C6_shutdown_postconditions (p : Pool) :
    (p.status = .RUNNING ∨ p.status = .PAUSED →
      (shutdown p).workers = [] ∧ (shutdown p).zombies = [] ∧
      (shutdown p).taskQueue = [] ∧ (shutdown p).status = .TERMINATED) ∧
    (p.status = .PAUSED → shutdown p = shutdown (resume p)) ∧
    (p.status ≠ .RUNNING → p.status ≠ .PAUSED → shutdown p = p) ∧
    shutdown (shutdown p) = shutdown p := by
  obtain ⟨st, q, mtc, ws, zs, busy, tf, core, maxt, ka, mi, ma⟩ := p
  cases st <;>
    simp [shutdown, resume, resumeWithoutStatusLock]

/-- Witness for C6 at a concretely constructed pool. -/
theorem C6_shutdown_postconditions_witness :
    (shutdown (mkPool 0 {})).status = PStatus.TERMINATED ∧
    (shutdown (mkPool 0 {})).workers = [] ∧
    (shutdown (mkPool 0 {})).taskQueue = [] := by
  have h := (C6_shutdown_postconditions (mkPool 0 {})).1 (Or.inl rfl)
  exact ⟨h.2.2.2, h.1, h.2.2.1⟩

/-- **C3 (counterexample).** The invariant "queue size never exceeds a
non-zero maximum" is violated in a reachable state: with an unbounded
queue, admit two tasks, then call `setMaxTaskCount 1` — the store is
unconditional, so the reachable state has maximum 1 and queue size 2. -/
theorem C3_counterexample_set_max_below_size :
    Reachable (mkPool 0 { max_task_count := 0 })
      (applyOp (.opSetMax 1)
        (applyOp (.opSubmit 2) (applyOp (.opSubmit 1) (mkPool 0 { max_task_count := 0 })))) ∧
    (applyOp (.opSetMax 1)
      (applyOp (.opSubmit 2) (applyOp (.opSubmit 1) (mkPool 0 { max_task_count := 0 })))).maxTaskCount
      ≠ 0 ∧
    ¬ ((applyOp (.opSetMax 1)
        (applyOp (.opSubmit 2)
          (applyOp (.opSubmit 1) (mkPool 0 { max_task_count := 0 })))).taskQueue.length ≤
       (applyOp (.opSetMax 1)
        (applyOp (.opSubmit 2)
          (applyOp (.opSubmit 1) (mkPool 0 { max_task_count := 0 })))).maxTaskCount) :=
  ⟨⟨[.opSubmit 1, .opSubmit 2, .opSetMax 1], rfl⟩, by decide, by decide⟩

/-- How each operation other than `setMaxTaskCount` acts on the queue and
its cap: the cap is untouched, and the queue is untouched, emptied
(shutdown), popped (a worker dequeue), or extended by one task after the
full-check passed (submit). -/
theorem applyOp_queue_effect (op : Op) (p : Pool) (hop : ∀ c, op ≠ Op.opSetMax c) :
    (applyOp op p).maxTaskCount = p.maxTaskCount ∧
    ((applyOp op p).taskQueue = p.taskQueue ∨ (applyOp op p).taskQueue = [] ∨
     (applyOp op p).taskQueue = p.taskQueue.tail ∨
     (∃ t, (applyOp op p).taskQueue = p.taskQueue ++ [t] ∧ isTaskQueueFull p = false)) := by
  cases op with
  | opSubmit t =>
    by_cases h1 : p.status ≠ PStatus.RUNNING ∧ p.status ≠ PStatus.PAUSED
    · simp [applyOp, submit, h1]
    · by_cases h2 : isTaskQueueFull p = true
      · simp [applyOp, submit, h1, h2]
      · refine ⟨?_, Or.inr (Or.inr (Or.inr ⟨t, ?_, by simpa using h2⟩))⟩ <;>
          simp [applyOp, submit, h1, h2]
  | opPause =>
    by_cases h1 : p.status = PStatus.RUNNING <;> simp [applyOp, pause, h1]
  | opResume =>
    by_cases h1 : p.status = PStatus.PAUSED <;>
      simp [applyOp, resume, resumeWithoutStatusLock, h1]
  | opShutdown =>
    obtain ⟨st, q, mtc, ws, zs, busy, tf, core, maxt, ka, mi, ma⟩ := p
    cases st <;> simp [applyOp, shutdown, resumeWithoutStatusLock]
  | opIncrease now c =>
    by_cases h1 : p.status ≠ PStatus.RUNNING ∧ p.status ≠ PStatus.PAUSED <;>
      simp [applyOp, increaseThreadCountWithoutStatusLock, h1]
  | opDecrease c =>
    by_cases h1 : p.status ≠ PStatus.RUNNING ∧ p.status ≠ PStatus.PAUSED <;>
      simp [applyOp, decreaseThreadCountWithoutStatusLock, h1]
  | opSetMax c => exact absurd rfl (hop c)
  | opAdjust now =>
    by_cases h1 : p.status ≠ PStatus.RUNNING ∧ p.status ≠ PStatus.PAUSED
    · simp [applyOp, adjustThreadCount, h1]
    · by_cases h2 : p.status = PStatus.RUNNING ∧ p.busyCount = getThreadCount p ∧
          p.taskQueue.length > 0 ∧ getThreadCount p < p.maxThreadCount
      · simp [applyOp, adjustThreadCount, h1, h2, increaseThreadCountWithoutStatusLock]
      · by_cases h3 : getThreadCount p > p.coreThreadCount ∧ p.busyCount < getThreadCount p
        · by_cases h4 : ((p.workers.reverse.take (getThreadCount p - p.coreThreadCount)).filter
              (fun w => decide (now - w.lastActive ≥ (p.keepAliveTime : Int)))).length > 0
          · simp [applyOp, adjustThreadCount, h1, h2, h3, h4,
              decreaseThreadCountWithoutStatusLock]
          · simp [applyOp, adjustThreadCount, h1, h2, h3, h4]
        · simp [applyOp, adjustThreadCount, h1, h2, h3]
  | opWorkerDequeue =>
    by_cases h1 : p.taskQueue.isEmpty = true <;> simp [applyOp, workerDequeue, h1]
  | opWorkerFinish =>
    simp [applyOp, workerFinish]

/-- **C3 (amended).** Every operation other than `setMaxTaskCount` preserves
the bound "queue size ≤ maximum (when the maximum is non-zero)"; in
particular `submit` refuses to enqueue into a full queue.
(`setMaxTaskCount` can lower the maximum below the current size, after
which the bound is violated until the queue drains.) -/
theorem C3_queue_bound_preserved (op : Op) (p : Pool)
    (hop : ∀ c, op ≠ Op.opSetMax c) (h : QueueBound p) : QueueBound (applyOp op p) := by
  intro hmax
  obtain ⟨hmx, hq⟩ := applyOp_queue_effect op p hop
  rw [hmx] at hmax ⊢
  have hb := h hmax
  rcases hq with h1 | h1 | h1 | ⟨t, h1, hfull⟩ <;> rw [h1]
  · exact hb
  · simp
  · have ht : p.taskQueue.tail.length = p.taskQueue.length - 1 := List.length_tail _
    omega
  · simp only [List.length_append, List.length_singleton]
    unfold isTaskQueueFull at hfull
    split at hfull
    · omega
    · simp only [decide_eq_false_iff_not, not_le] at hfull
      omega

/-- Witness for C3 (amended): the bound holds after pausing a fresh bounded
pool. -/
theorem C3_queue_bound_preserved_witness :
    QueueBound (applyOp .opPause (mkPool 0 { max_task_count := 4 })) :=
  C3_queue_bound_preserved .opPause (mkPool 0 { max_task_count := 4 })
    (fun c => by simp) (fun _ => by decide)

/-- **C7.** One monitor tick grows the live worker set by exactly one worker
iff the pool is RUNNING, every live worker is busy, the queue is non-empty,
and the live count is below `max_thread_count`; when the grow rule fires the
tick returns early with exactly one appended worker and the zombie list
untouched, so a single tick never both grows and shrinks. -/
theorem C7_adjust_grow_iff (now : Int) (p : Pool) :
    ((adjustThreadCount now p).workers.length = p.workers.length + 1 ↔ GrowConds p) ∧
    (GrowConds p →
      adjustThreadCount now p =
        { p with workers := p.workers ++ [newWorker now p.keepAliveTime] } ∧
      (adjustThreadCount now p).zombies = p.zombies) := by
  have hgrow : GrowConds p →
      adjustThreadCount now p = { p with workers := p.workers ++ [newWorker now p.keepAliveTime] } := by
    rintro ⟨h1, h2, h3, h4⟩
    unfold adjustThreadCount
    rw [if_neg (by simp [h1])]
    simp only [getThreadCount]
    rw [if_pos ⟨h1, h2, h3, h4⟩]
    simp [increaseThreadCountWithoutStatusLock, h1]
  constructor
  · constructor
    · intro hlen
      by_contra hng
      -- on every non-grow path the worker count does not increase
      unfold adjustThreadCount at hlen
      split at hlen
      · omega
      · rename_i hstat
        simp only [getThreadCount] at hlen
        split at hlen
        · rename_i hc
          exact hng hc
        · split at hlen
          · split at hlen
            · simp only [decreaseThreadCountWithoutStatusLock, if_neg hstat,
                List.length_take] at hlen
              omega
            · omega
          · omega
    · intro hc
      rw [hgrow hc]
      simp
  · intro hc
    refine ⟨hgrow hc, ?_⟩
    rw [hgrow hc]

/-- Witness for C7 at a pool in grow conditions. -/
theorem C7_adjust_grow_iff_witness :
    (adjustThreadCount 0 { mkPool 0 {} with busyCount := 1, taskQueue := [7] }).workers.length =
      ({ mkPool 0 {} with busyCount := 1, taskQueue := [7] } : Pool).workers.length + 1 ∧
    (adjustThreadCount 0 { mkPool 0 {} with busyCount := 1, taskQueue := [7] }).zombies =
      ({ mkPool 0 {} with busyCount := 1, taskQueue := [7] } : Pool).zombies := by
  have hc : GrowConds { mkPool 0 {} with busyCount := 1, taskQueue := [7] } := by
    refine ⟨rfl, by decide, by decide, by decide⟩
  have h := C7_adjust_grow_iff 0 { mkPool 0 {} with busyCount := 1, taskQueue := [7] }
  exact ⟨h.1.mpr hc, (h.2 hc).2⟩

/-- **C4.** `getOrCreateConfigVarPtr` returns the existing handle (ignoring
the supplied default and description) when the name exists with the declared
type; returns a null handle without mutating the registry when the name
exists with a different declared type; throws `std::invalid_argument` when
the name is absent and fails key validation (empty, or any character
outside `[0-9a-z_.]` — in particular any uppercase letter); otherwise
creates, registers and returns a new variable holding the default value. -/
theorem C4_get_or_create_cases (ty : VType) (name : Str) (d : ty.interp)
    (desc : Str) (r : Registry) :
    (∀ e, lookupVar r name = some e → e.ty = ty →
        getOrCreateConfigVarPtr ty name d desc r = (.ok (some e), r)) ∧
    (∀ e, lookupVar r name = some e → e.ty ≠ ty →
        getOrCreateConfigVarPtr ty name d desc r = (.ok none, r)) ∧
    (lookupVar r name = none → isValidName name = false →
        getOrCreateConfigVarPtr ty name d desc r = (.error name, r)) ∧
    (lookupVar r name = none → isValidName name = true →
        getOrCreateConfigVarPtr ty name d desc r =
          (.ok (some ⟨ty, name, desc, d⟩), (name, ⟨ty, name, desc, d⟩) :: r)) ∧
    (isValidName name = true ↔ name ≠ [] ∧ ∀ c ∈ name,
        ('0' ≤ c ∧ c ≤ '9') ∨ ('a' ≤ c ∧ c ≤ 'z') ∨ c = '_' ∨ c = '.') ∧
    (∀ c ∈ name, 'A' ≤ c → c ≤ 'Z' → isValidName name = false) := by
  refine ⟨?_, ?_, ?_, ?_, ?_, ?_⟩
  · intro e he hty
    simp [getOrCreateConfigVarPtr, he, hty]
  · intro e he hty
    simp [getOrCreateConfigVarPtr, he, hty]
  · intro he hv
    simp [getOrCreateConfigVarPtr, he, hv]
  · intro he hv
    simp [getOrCreateConfigVarPtr, he, hv]
  · unfold isValidName
    simp only [Bool.and_eq_true, Bool.not_eq_true', List.all_eq_true]
    constructor
    · rintro ⟨h1, h2⟩
      refine ⟨by cases name <;> simp_all, fun c hc => ?_⟩
      have := h2 c hc
      simp only [isValidChar, Bool.or_eq_true, Bool.and_eq_true, decide_eq_true_eq,
        beq_iff_eq] at this
      tauto
    · rintro ⟨h1, h2⟩
      refine ⟨by cases name <;> simp_all, fun c hc => ?_⟩
      have := h2 c hc
      simp only [isValidChar, Bool.or_eq_true, Bool.and_eq_true, decide_eq_true_eq,
        beq_iff_eq]
      tauto
  · intro c hc hA hZ
    by_contra hvn
    simp only [Bool.not_eq_false] at hvn
    unfold isValidName at hvn
    simp only [Bool.and_eq_true, List.all_eq_true] at hvn
    have := hvn.2 c hc
    simp only [isValidChar, Bool.or_eq_true, Bool.and_eq_true, decide_eq_true_eq,
      beq_iff_eq] at this
    rcases this with ((⟨h1, h2⟩ | ⟨h1, h2⟩) | h1) | h1
    · exact absurd (le_trans h1 hZ) (by decide)
    · exact absurd (le_trans hA h2) (by decide)
    · subst h1; exact absurd hA (by decide)
    · subst h1; exact absurd hZ (by decide)

/-- Witness for C4: creating `a` in the empty registry. -/
theorem C4_get_or_create_cases_witness :
    getOrCreateConfigVarPtr .tSizeT ['a'] 5 [] [] =
      (.ok (some ⟨.tSizeT, ['a'], [], 5⟩), [(['a'], ⟨.tSizeT, ['a'], [], 5⟩)]) :=
  (C4_get_or_create_cases .tSizeT ['a'] 5 [] []).2.2.2.1 rfl (by decide)

/-- **C5.** During `loadFromConfDir`, a file whose YAML parse fails is
skipped while the remaining files are still processed; the timestamp-cache
entry is updated before parsing, so a subsequent non-forced call skips the
same unmodified broken file; and a file whose mtime equals the cached value
is skipped iff `force` is false. -/
theorem C5_conf_dir_cache (force : Bool) (files : List ConfFile)
    (cache : TsCache) (f : ConfFile) (ts : Nat) :
    ((loadFromConfDir force files cache).2.map Prod.fst = files.map ConfFile.path) ∧
    (f.statResult = some ts → ¬(force = false ∧ ts = cacheGet cache f.path) →
       (processFile force cache f).1 = cacheSet cache f.path ts ∧
       (f.parseOk = false → (processFile force cache f).2 = .parseFailed)) ∧
    (f.statResult = some ts →
       ((processFile force cache f).2 = .loaded ∨ (processFile force cache f).2 = .parseFailed) →
       processFile false (processFile force cache f).1 f = ((processFile force cache f).1, .skippedUnchanged)) ∧
    (f.statResult = some ts →
       ((processFile force cache f).2 = .skippedUnchanged ↔
         (force = false ∧ ts = cacheGet cache f.path))) := by
  have hskip : ∀ b c, (!b && (ts == cacheGet c f.path)) = true ↔
      (b = false ∧ ts = cacheGet c f.path) := by
    intro b c
    cases b <;> simp
  refine ⟨?_, ?_, ?_, ?_⟩
  · induction files generalizing cache with
    | nil => simp [loadFromConfDir]
    | cons f' rest ih => simp [loadFromConfDir, ih]
  · intro hstat hcond
    have hbe : (!force && (ts == cacheGet cache f.path)) = false := by
      by_contra hx
      simp only [Bool.not_eq_false] at hx
      exact hcond ((hskip force cache).mp hx)
    unfold processFile
    rw [hstat]
    simp only [hbe, Bool.false_eq_true, if_false]
    constructor
    · split <;> rfl
    · intro hpo
      simp [hpo]
  · intro hstat hact
    by_cases hbe : (!force && (ts == cacheGet cache f.path)) = true
    · exfalso
      unfold processFile at hact
      rw [hstat] at hact
      simp only [hbe, if_true] at hact
      rcases hact with h | h <;> simp at h
    · have hbe' : (!force && (ts == cacheGet cache f.path)) = false := by
        simpa using hbe
      have h1 : (processFile force cache f).1 = cacheSet cache f.path ts := by
        unfold processFile
        rw [hstat]
        simp only [hbe', Bool.false_eq_true, if_false]
        split <;> rfl
      rw [h1]
      unfold processFile
      rw [hstat]
      have hts : cacheGet (cacheSet cache f.path ts) f.path = ts := by
        simp [cacheGet, cacheSet]
      simp [hts]
  · intro hstat
    unfold processFile
    rw [hstat]
    by_cases hbe : (!force && (ts == cacheGet cache f.path)) = true
    · simp only [hbe, if_true]
      exact iff_of_true trivial ((hskip force cache).mp hbe)
    · have hbe' : (!force && (ts == cacheGet cache f.path)) = false := by
        simpa using hbe
      simp only [hbe', Bool.false_eq_true, if_false]
      constructor
      · intro hact
        exfalso
        split at hact <;> simp at hact
      · intro hc
        exact absurd ((hskip force cache).mpr hc) hbe

/-- Witness for C5: one stat-ok, parse-broken file with a fresh timestamp. -/
theorem C5_conf_dir_cache_witness :
    (processFile false [] ⟨1, some 5, false⟩).1 = cacheSet [] 1 5 ∧
    (processFile false [] ⟨1, some 5, false⟩).2 = FileAction.parseFailed ∧
    processFile false (processFile false [] ⟨1, some 5, false⟩).1 ⟨1, some 5, false⟩ =
      ((processFile false [] ⟨1, some 5, false⟩).1, FileAction.skippedUnchanged) := by
  have h := C5_conf_dir_cache false [] [] ⟨1, some 5, false⟩ 5
  have h2 := h.2.1 rfl (by simp [cacheGet])
  exact ⟨h2.1, h2.2 rfl, h.2.2.1 rfl (Or.inr (h2.2 rfl))⟩

/-- **C1 (counterexample).** `m_cbs` is a `std::unordered_map`, whose
iteration order is unspecified: with listeners 1 and 2 registered, the
enumeration `[2, 1]` is a permitted iteration of the map, and under it
`setValue` fires the listeners in the order 2, 1 — not in ascending
listener-id order as claimed. -/
theorem C1_counterexample_listener_order :
    List.Perm [2, 1] ([1, 2] : List Nat) ∧
    (setValue (fun a b : Nat => a == b) ⟨[], [], 0, [1, 2]⟩ 1 [2, 1]).2 =
      [(2, 0, 1), (1, 0, 1)] ∧
    ¬ List.Sorted (· ≤ ·)
      ((setValue (fun a b : Nat => a == b) ⟨[], [], 0, [1, 2]⟩ 1 [2, 1]).2.map Prod.fst) :=
  ⟨by decide, rfl, by decide⟩

/-- **C1 (amended).** `setValue` with a value equal (under the type's
`operator==`) to the current one changes nothing and invokes no listener;
with a different value it installs the new value and then invokes every
registered listener exactly once with `(old value, new value)` — in the
unordered container's unspecified iteration order, not necessarily in
ascending listener-id order. -/
theorem C1_set_value_events (α : Type) (eq : α → α → Bool) (v : ConfigVar α)
    (value : α) (e : List Nat) (he : e.Perm v.cbIds) :
    (eq value v.val = true → setValue eq v value e = (v, [])) ∧
    (eq value v.val = false →
      (setValue eq v value e).1 = { v with val := value } ∧
      ((setValue eq v value e).2.map Prod.fst).Perm v.cbIds ∧
      ∀ ev ∈ (setValue eq v value e).2, ev.2 = (v.val, value)) := by
  constructor
  · intro heq
    simp [setValue, heq]
  · intro hne
    refine ⟨by simp [setValue, hne], ?_, ?_⟩
    · simp only [setValue, hne, Bool.false_eq_true, if_false]
      have hmap : List.map Prod.fst (List.map (fun i : Nat => (i, v.val, value)) e) = e := by
        rw [List.map_map]
        exact List.map_id _
      rw [hmap]
      exact he
    · intro ev hev
      simp only [setValue, hne, Bool.false_eq_true, if_false, List.mem_map] at hev
      obtain ⟨i, _, hi⟩ := hev
      simp [← hi]

/-- Witness for C1 (amended) at a concrete variable with two listeners. -/
theorem C1_set_value_events_witness :
    (setValue (fun a b : Nat => a == b) ⟨[], [], 0, [1, 2]⟩ 3 [2, 1]).1 =
      { name := [], description := [], val := 3, cbIds := [1, 2] } ∧
    ((setValue (fun a b : Nat => a == b) ⟨[], [], 0, [1, 2]⟩ 3 [2, 1]).2.map Prod.fst).Perm
      [1, 2] := by
  have h := (C1_set_value_events Nat (fun a b => a == b) ⟨[], [], 0, [1, 2]⟩ 3 [2, 1]
      (by decide)).2 (by decide)
  exact ⟨h.1, h.2.1⟩

mutual
/-- Every pair the flattener emits carries a valid (hence non-empty)
dotted name: invalid prefixes are pruned together with their subtrees. -/
theorem listAllMembers_valid_emits (pfx : Str) (node : YNode) (pr : Str) (n : YNode)
    (h : (pr, n) ∈ listAllMembers pfx node) : isValidName pr = true := by
  unfold listAllMembers at h
  split at h
  · simp at h
  · rename_i hguard
    rcases List.mem_append.mp h with h1 | h2
    · by_cases hemp : pfx.isEmpty
      · rw [if_pos hemp] at h1
        simp at h1
      · rw [if_neg hemp] at h1
        simp only [List.mem_singleton, Prod.mk.injEq] at h1
        obtain ⟨rfl, rfl⟩ := h1
        cases hv : isValidName pr
        · exact absurd (by simp [hv, hemp]) hguard
        · rfl
    · cases node with
      | ymap kvs => exact listAllMembersKvs_valid_emits pfx kvs pr n h2
      | scalar s => simp at h2
      | yseq l => simp at h2

/-- Companion of `listAllMembers_valid_emits` for the map-children loop. -/
theorem listAllMembersKvs_valid_emits (pfx : Str) (kvs : List (Str × YNode))
    (pr : Str) (n : YNode) (h : (pr, n) ∈ listAllMembersKvs pfx kvs) :
    isValidName pr = true := by
  match kvs with
  | [] =>
    unfold listAllMembersKvs at h
    simp at h
  | (k, v) :: rest =>
    unfold listAllMembersKvs at h
    rcases List.mem_append.mp h with h1 | h2
    · exact listAllMembers_valid_emits (dotConcat pfx k) v pr n h1
    · exact listAllMembersKvs_valid_emits pfx rest pr n h2
end

/-- The map-children loop is a `flatMap` of the recursive calls. -/
theorem listAllMembersKvs_eq_flatMap (pfx : Str) (kvs : List (Str × YNode)) :
    listAllMembersKvs pfx kvs =
      kvs.flatMap (fun kv => listAllMembers (dotConcat pfx kv.1) kv.2) := by
  induction kvs with
  | nil => rfl
  | cons kv rest ih =>
    obtain ⟨k, v⟩ := kv
    rw [List.flatMap_cons]
    unfold listAllMembersKvs
    rw [ih]

/-- A valid name is non-empty. -/
theorem isValidName_ne_nil (s : Str) (h : isValidName s = true) : s ≠ [] := by
  intro hnil
  subst hnil
  simp [isValidName] at h

/-- The defining equation of `listAllMembers`, as a rewrite rule. -/
theorem listAllMembers_eq (pfx : Str) (node : YNode) :
    listAllMembers pfx node =
      if !pfx.isEmpty && !isValidName pfx then []
      else
        (if pfx.isEmpty then [] else [(pfx, node)]) ++
        (match node with
         | .ymap kvs => listAllMembersKvs pfx kvs
         | _ => []) := by
  unfold listAllMembers
  rfl

/-- **C8.** The flattener emits a pair for every node with a valid non-empty
dotted prefix — intermediate maps as well as leaves; a node whose prefix is
invalid is logged and neither emitted nor descended into; map children are
recursed into with prefix `prefix + "." + key` (just `key` at the root);
sequences are emitted whole at their parent key and never descended into;
and every emitted pair carries a valid name. -/
theorem C8_flattener_properties (pfx pr : Str) (node n root : YNode)
    (kvs : List (Str × YNode)) (elems : List YNode) :
    (pfx ≠ [] → isValidName pfx = false → listAllMembers pfx node = []) ∧
    (isValidName pfx = true → (pfx, node) ∈ listAllMembers pfx node) ∧
    (isValidName pfx = true →
       listAllMembers pfx (.ymap kvs) =
         (pfx, YNode.ymap kvs) ::
           kvs.flatMap (fun kv => listAllMembers (dotConcat pfx kv.1) kv.2)) ∧
    (listAllMembers [] (.ymap kvs) =
       kvs.flatMap (fun kv => listAllMembers kv.1 kv.2)) ∧
    (isValidName pfx = true → listAllMembers pfx (.yseq elems) = [(pfx, .yseq elems)]) ∧
    ((pr, n) ∈ listAllMembers [] root → isValidName pr = true) := by
  refine ⟨?_, ?_, ?_, ?_, ?_, ?_⟩
  · intro hne hv
    rw [listAllMembers_eq]
    rw [if_pos]
    simp [hv, hne]
  · intro hv
    have hne := isValidName_ne_nil pfx hv
    rw [listAllMembers_eq]
    rw [if_neg (by simp [hv])]
    rw [if_neg (by simp [hne])]
    exact List.mem_append_left _ (List.mem_singleton.mpr rfl)
  · intro hv
    have hne := isValidName_ne_nil pfx hv
    rw [listAllMembers_eq]
    rw [if_neg (by simp [hv]), if_neg (by simp [hne])]
    show [(pfx, YNode.ymap kvs)] ++ listAllMembersKvs pfx kvs = _
    rw [listAllMembersKvs_eq_flatMap]
    rfl
  · rw [listAllMembers_eq]
    rw [if_neg (by simp)]
    rw [if_pos (by simp)]
    show ([] : List (Str × YNode)) ++ listAllMembersKvs [] kvs = _
    rw [listAllMembersKvs_eq_flatMap]
    simp [dotConcat]
  · intro hv
    have hne := isValidName_ne_nil pfx hv
    rw [listAllMembers_eq]
    rw [if_neg (by simp [hv]), if_neg (by simp [hne])]
    rfl
  · exact listAllMembers_valid_emits [] root pr n

/-- Witness for C8 on a concrete tree: prefix `a`, a sequence node. -/
theorem C8_flattener_properties_witness :
    listAllMembers ['a'] (.yseq []) = [(['a'], YNode.yseq [])] :=
  (C8_flattener_properties ['a'] [] (.yseq []) (.yseq []) (.yseq []) [] []).2.2.2.2.1 rfl

/-! ### Scalar codec lemmas (towards C2) -/

/-- A digit character is a digit, decodes to its value, and is not
whitespace. -/
theorem digitChar_spec (d : Nat) (h : d < 10) :
    isDigitChar (digitChar d) = true ∧ digitVal (digitChar d) = d ∧
    isSpaceChar (digitChar d) = false := by
  interval_cases d <;> refine ⟨by decide, by decide, by decide⟩

/-- The six stream whitespace characters. -/
theorem isSpaceChar_cases (c : Char) (h : isSpaceChar c = true) :
    c = ' ' ∨ c = '\t' ∨ c = '\n' ∨ c = '\x0b' ∨ c = '\x0c' ∨ c = '\r' := by
  simp only [isSpaceChar, Bool.or_eq_true, beq_iff_eq] at h
  tauto

/-- Digits are not whitespace. -/
theorem isDigitChar_not_space (c : Char) (h : isDigitChar c = true) :
    isSpaceChar c = false := by
  cases hs : isSpaceChar c
  · rfl
  · exfalso
    rcases isSpaceChar_cases c hs with rfl | rfl | rfl | rfl | rfl | rfl <;>
      exact absurd h (by decide)

/-- The decimal form of `n` is all digits and non-empty. -/
theorem natToChars_digits (n : Nat) :
    (∀ c ∈ natToChars n, isDigitChar c = true) ∧ natToChars n ≠ [] := by
  unfold natToChars
  split
  · exact ⟨by decide, by decide⟩
  · rename_i hn
    constructor
    · simp only [List.mem_reverse, List.mem_map]
      rintro c ⟨d, hd, rfl⟩
      exact (digitChar_spec d (Nat.digits_lt_base (by norm_num) hd)).1
    · simp only [ne_eq, List.reverse_eq_nil_iff, List.map_eq_nil_iff]
      exact Nat.digits_ne_nil_iff_ne_zero.mpr hn

/-- `operator>>` into a string returns a plain token unchanged with the
buffer exhausted. -/
theorem extractToken_of_plain (s : Str) (h : isPlainToken s = true) :
    extractToken s = some (s, []) := by
  unfold isPlainToken at h
  simp only [Bool.and_eq_true, Bool.not_eq_true', List.all_eq_true] at h
  obtain ⟨hne, hall⟩ := h
  have hdrop : s.dropWhile isSpaceChar = s := by
    cases s with
    | nil => rfl
    | cons c t =>
      rw [List.dropWhile_cons_of_neg]
      simp [hall c (by simp)]
  have htake : s.takeWhile (fun c => !isSpaceChar c) = s :=
    List.takeWhile_eq_self_iff.mpr (fun c hc => by simp [hall c hc])
  have hdrop2 : s.dropWhile (fun c => !isSpaceChar c) = [] :=
    List.dropWhile_eq_nil_iff.mpr (fun c hc => by simp [hall c hc])
  simp only [extractToken]
  rw [hdrop, htake, hdrop2]
  rw [if_neg (by cases s <;> simp_all)]

/-- `convert<std::string>` is the identity on plain tokens. -/
theorem convertStrStr_plain (s : Str) (h : isPlainToken s = true) :
    convertStrStr s = some s := by
  unfold convertStrStr
  rw [extractToken_of_plain s h]
  rfl

/-- Big-endian digit folding in terms of `Nat.ofDigits`. -/
theorem foldl_ofDigits (L : List Nat) (a : Nat) :
    L.foldl (fun acc d => 10 * acc + d) a = a * 10 ^ L.length + Nat.ofDigits 10 L.reverse := by
  induction L generalizing a with
  | nil => simp
  | cons d t ih =>
    simp only [List.foldl_cons, List.reverse_cons, List.length_cons]
    rw [ih, Nat.ofDigits_append, Nat.ofDigits_singleton]
    simp only [List.length_reverse]
    ring

/-- Fold congruence over the members of a list. -/
theorem foldl_congr_mem {α β : Type} (l : List α) (f g : β → α → β) (a : β)
    (h : ∀ b x, x ∈ l → f b x = g b x) : l.foldl f a = l.foldl g a := by
  induction l generalizing a with
  | nil => rfl
  | cons x t ih =>
    simp only [List.foldl_cons]
    rw [h a x (by simp)]
    exact ih _ (fun b y hy => h b y (by simp [hy]))

/-- Folding the decimal decoder over `n`'s digit characters recovers `n`. -/
theorem natToChars_value (n : Nat) :
    (natToChars n).foldl (fun acc c => 10 * acc + digitVal c) 0 = n := by
  unfold natToChars
  split
  · rename_i h
    subst h
    decide
  · rename_i hn
    rw [← List.map_reverse, List.foldl_map]
    rw [foldl_congr_mem ((Nat.digits 10 n).reverse)
        (fun acc d => 10 * acc + digitVal (digitChar d)) (fun acc d => 10 * acc + d) 0
        (fun b x hx => by
          show 10 * b + digitVal (digitChar x) = 10 * b + x
          rw [(digitChar_spec x (Nat.digits_lt_base (by norm_num)
            (List.mem_reverse.mp hx))).2.1])]
    rw [foldl_ofDigits]
    simp [Nat.ofDigits_digits]

/-- `operator>>` into an unsigned integer consumes the decimal form of `n`
whole and yields `n`. -/
theorem extractNat_natToChars (n : Nat) : extractNat (natToChars n) = some (n, []) := by
  obtain ⟨hall, hne⟩ := natToChars_digits n
  have hdrop : (natToChars n).dropWhile isSpaceChar = natToChars n := by
    cases hc : natToChars n with
    | nil => rfl
    | cons c t =>
      rw [List.dropWhile_cons_of_neg]
      simp [isDigitChar_not_space c (hall c (by rw [hc]; simp))]
  have htake : (natToChars n).takeWhile isDigitChar = natToChars n :=
    List.takeWhile_eq_self_iff.mpr hall
  have hdrop2 : (natToChars n).dropWhile isDigitChar = [] :=
    List.dropWhile_eq_nil_iff.mpr hall
  simp only [extractNat]
  rw [hdrop, htake, hdrop2]
  rw [if_neg (by simp [hne])]
  rw [natToChars_value]

/-- `convert<std::size_t>` inverts the decimal form. -/
theorem convertStrNat_natToChars (n : Nat) : convertStrNat (natToChars n) = some n := by
  unfold convertStrNat
  rw [extractNat_natToChars]
  rfl

/-- The decimal form is a plain token. -/
theorem natToChars_plain (n : Nat) : isPlainToken (natToChars n) = true := by
  obtain ⟨hall, hne⟩ := natToChars_digits n
  unfold isPlainToken
  simp only [Bool.and_eq_true, Bool.not_eq_true', List.all_eq_true]
  exact ⟨by simpa using hne, fun c hc => isDigitChar_not_space c (hall c hc)⟩

/-- `convert<std::string>` of an unsigned integer yields its decimal
form. -/
theorem convertNatStr_eq (n : Nat) : convertNatStr n = some (natToChars n) := by
  unfold convertNatStr
  exact convertStrStr_plain _ (natToChars_plain n)

/-! ### Sequence codec lemmas (towards C2) -/

/-- No newline occurs in a decimal form. -/
theorem natToChars_no_newline (n : Nat) : '\n' ∉ natToChars n := by
  intro hmem
  exact absurd ((natToChars_digits n).1 '\n' hmem) (by decide)

/-- No colon occurs in a decimal form. -/
theorem natToChars_no_colon (n : Nat) : ':' ∉ natToChars n := by
  intro hmem
  exact absurd ((natToChars_digits n).1 ':' hmem) (by decide)

/-- Splitting the emitted buffer recovers the lines. -/
theorem splitLines_dumpLines (lines : List Str) (hne : lines ≠ [])
    (h : ∀ l ∈ lines, '\n' ∉ l) : splitLines (dumpLines lines) = lines := by
  unfold splitLines dumpLines
  exact List.splitOn_intercalate _ '\n' h hne

/-- Each emitted `- e` line parses back to `e`. -/
theorem mapM_parseSeqLine (es : List Str) :
    mapOption parseSeqLine (es.map (fun e => '-' :: ' ' :: e)) = some es := by
  induction es with
  | nil => rfl
  | cons e t ih => simp [mapOption, parseSeqLine, ih]

/-- Parsing the dump of newline-free entries recovers them. -/
theorem parseSeq_dumpSeq (es : List Str) (h : ∀ e ∈ es, '\n' ∉ e) :
    parseSeq (dumpSeq es) = some es := by
  cases es with
  | nil => rfl
  | cons e t =>
    have hlines : ∀ l ∈ (e :: t).map (fun x => '-' :: ' ' :: x), '\n' ∉ l := by
      intro l hl
      simp only [List.mem_map] at hl
      obtain ⟨x, hx, rfl⟩ := hl
      intro hmem
      rcases List.mem_cons.mp hmem with h1 | hmem2
      · exact absurd h1 (by decide)
      · rcases List.mem_cons.mp hmem2 with h2 | hmem3
        · exact absurd h2 (by decide)
        · exact h x hx hmem3
    unfold dumpSeq
    rw [if_neg (by simp)]
    have hne2 : dumpLines ((e :: t).map (fun x => '-' :: ' ' :: x)) ≠ ['[', ']'] := by
      intro heq
      have h1 := splitLines_dumpLines _ (by simp) hlines
      rw [heq] at h1
      have h2 : splitLines ['[', ']'] = [['[', ']']] := by decide
      rw [h2] at h1
      simp only [List.map_cons] at h1
      injection h1 with h3 _
      injection h3 with h4 _
      exact absurd h4 (by decide)
    unfold parseSeq
    rw [if_neg hne2]
    rw [splitLines_dumpLines _ (by simp) hlines]
    exact mapM_parseSeqLine (e :: t)

/-- The element conversions of a `std::vector<std::size_t>` all succeed. -/
theorem mapM_convertNatStr (v : List Nat) :
    mapOption convertNatStr v = some (v.map natToChars) := by
  induction v with
  | nil => rfl
  | cons n t ih => simp [mapOption, convertNatStr_eq, ih]

/-- Reading the element strings back recovers the numbers. -/
theorem mapM_convertStrNat (v : List Nat) :
    mapOption convertStrNat (v.map natToChars) = some v := by
  induction v with
  | nil => rfl
  | cons n t ih => simp [mapOption, convertStrNat_natToChars, ih]

/-- Round trip of the sequence codec on `std::vector<std::size_t>` /
`std::list<std::size_t>`. -/
theorem vecNat_roundtrip (v : List Nat) :
    (vecNatToString v).bind stringToVecNat = some v := by
  unfold vecNatToString stringToVecNat
  rw [mapM_convertNatStr]
  simp only [Option.map_some', Option.some_bind]
  rw [parseSeq_dumpSeq _ (by
    intro e he
    simp only [List.mem_map] at he
    obtain ⟨n, _, rfl⟩ := he
    exact natToChars_no_newline n)]
  simp only [Option.some_bind]
  exact mapM_convertStrNat v

/-- A successful extraction yields a plain token. -/
theorem extractToken_plain_out (s tok rest : Str)
    (h : extractToken s = some (tok, rest)) : isPlainToken tok = true := by
  simp only [extractToken] at h
  split at h
  · exact absurd h (by simp)
  · rename_i hne
    injection h with h1
    injection h1 with h2 h3
    subst h2
    unfold isPlainToken
    simp only [Bool.and_eq_true, Bool.not_eq_true', List.all_eq_true]
    refine ⟨by simpa using hne, fun c hc => ?_⟩
    have := List.mem_takeWhile_imp hc
    simpa using this

/-- A string containing stream whitespace never round-trips through the
string codec: the extraction either fails the full-consumption check or
returns a proper (whitespace-free) sub-token. -/
theorem convertStrStr_ws_fails (s : Str) (c : Char) (hc : c ∈ s)
    (hcs : isSpaceChar c = true) : (convertStrStr s).bind convertStrStr ≠ some s := by
  intro habs
  cases hcv : convertStrStr s with
  | none => rw [hcv] at habs; simp at habs
  | some tok =>
    rw [hcv] at habs
    simp only [Option.some_bind] at habs
    have htokp : isPlainToken tok = true := by
      unfold convertStrStr at hcv
      cases hext : extractToken s with
      | none => rw [hext] at hcv; simp at hcv
      | some pr =>
        rw [hext] at hcv
        obtain ⟨tk, rest⟩ := pr
        have := extractToken_plain_out s tk rest hext
        simp only at hcv
        split at hcv
        · injection hcv with h1
          subst h1
          exact this
        · exact absurd hcv (by simp)
    rw [convertStrStr_plain tok htokp] at habs
    injection habs with h1
    subst h1
    unfold isPlainToken at htokp
    simp only [Bool.and_eq_true, Bool.not_eq_true', List.all_eq_true] at htokp
    rw [htokp.2 c hc] at hcs
    exact absurd hcs (by simp)

/-! ### Ordered-container codec lemmas (towards C2) -/

/-- Inserting an element greater than everything present appends it. -/
theorem insertOrdered_append {α : Type} (lt : α → α → Bool)
    (hasym : ∀ x y, lt x y = true → lt y x = false) (a : α) (acc : List α)
    (hall : ∀ x ∈ acc, lt x a = true) : insertOrdered lt a acc = acc ++ [a] := by
  induction acc with
  | nil => rfl
  | cons b t ih =>
    unfold insertOrdered
    rw [if_neg (by simp [hasym b a (hall b (by simp))]), if_pos (hall b (by simp))]
    rw [ih (fun x hx => hall x (by simp [hx]))]
    rfl

/-- Re-inserting a strictly sorted enumeration, in order, rebuilds the same
container. -/
theorem foldl_insertOrdered_sorted {α : Type} (lt : α → α → Bool)
    (hasym : ∀ x y, lt x y = true → lt y x = false) :
    ∀ (l acc : List α), List.Pairwise (fun x y => lt x y = true) (acc ++ l) →
      l.foldl (fun acc a => insertOrdered lt a acc) acc = acc ++ l := by
  intro l
  induction l with
  | nil =>
    intro acc _
    simp
  | cons a t ih =>
    intro acc h
    simp only [List.foldl_cons]
    have hall : ∀ x ∈ acc, lt x a = true := fun x hx =>
      (List.pairwise_append.mp h).2.2 x hx a (by simp)
    rw [insertOrdered_append lt hasym a acc hall]
    have hperm : acc ++ a :: t = (acc ++ [a]) ++ t := by simp
    rw [hperm] at h
    rw [ih (acc ++ [a]) h]
    simp

/-- `std::less<std::size_t>` is asymmetric. -/
theorem natLt_asymm (x y : Nat) (h : natLt x y = true) : natLt y x = false := by
  simp only [natLt, decide_eq_true_eq] at h
  simp only [natLt, decide_eq_false_iff_not]
  omega

/-- Round trip of the `std::set<std::size_t>` codec on the set's sorted
enumeration. -/
theorem setNat_roundtrip (l : List Nat) (hs : List.Pairwise (· < ·) l) :
    (setNatToString l).bind stringToSetNat = some l := by
  unfold setNatToString stringToSetNat
  unfold vecNatToString stringToVecNat
  rw [mapM_convertNatStr]
  simp only [Option.map_some', Option.some_bind]
  rw [parseSeq_dumpSeq _ (by
    intro e he
    simp only [List.mem_map] at he
    obtain ⟨n, _, rfl⟩ := he
    exact natToChars_no_newline n)]
  simp only [Option.some_bind]
  rw [mapM_convertStrNat]
  simp only [Option.map_some', Option.some.injEq]
  have h0 : List.Pairwise (fun x y => natLt x y = true) ([] ++ l) := by
    simp only [List.nil_append]
    exact hs.imp (fun hxy => by simpa [natLt] using hxy)
  simpa using foldl_insertOrdered_sorted natLt natLt_asymm l [] h0

/-- `std::less<std::string>` is asymmetric. -/
theorem strLt_asymm : ∀ (a b : Str), strLt a b = true → strLt b a = false
  | [], [] => by simp [strLt]
  | [], _ :: _ => by simp [strLt]
  | _ :: _, [] => by simp [strLt]
  | a :: as, b :: bs => by
    intro h
    unfold strLt at h ⊢
    split at h
    · rename_i hab
      rw [if_neg (by simp [lt_asymm hab]), if_pos hab]
    · rename_i hab
      split at h
      · exact absurd h (by simp)
      · rename_i hba
        rw [if_neg hba, if_neg hab]
        exact strLt_asymm as bs h

/-- `keyLt` inherits asymmetry from `strLt`. -/
theorem keyLt_asymm (x y : Str × Nat) (h : keyLt x y = true) : keyLt y x = false :=
  strLt_asymm x.1 y.1 h

/-- A valid configuration key contains neither `:` nor a newline. -/
theorem validName_no_colon_newline (k : Str) (h : isValidName k = true) :
    ':' ∉ k ∧ '\n' ∉ k := by
  simp only [isValidName, Bool.and_eq_true, List.all_eq_true] at h
  constructor <;> intro hmem <;> exact absurd (h.2 _ hmem) (by decide)

/-- One emitted `k: v` line parses back to `(k, v)` when the key is
colon-free. -/
theorem parseMapLine_mk (k v : Str) (hk : ':' ∉ k) :
    parseMapLine (k ++ ':' :: ' ' :: v) = some (k, v) := by
  have hdrop : (k ++ ':' :: ' ' :: v).dropWhile (fun c => c ≠ ':') = ':' :: ' ' :: v := by
    induction k with
    | nil =>
      rw [List.nil_append, List.dropWhile_cons_of_neg]
      simp
    | cons c t ih =>
      have hc : c ≠ ':' := fun h => hk (by simp [h])
      rw [List.cons_append, List.dropWhile_cons_of_pos (by simpa using hc)]
      exact ih (fun hx => hk (by simp [hx]))
  have htake : (k ++ ':' :: ' ' :: v).takeWhile (fun c => c ≠ ':') = k := by
    clear hdrop
    induction k with
    | nil =>
      rw [List.nil_append, List.takeWhile_cons_of_neg]
      simp
    | cons c t ih =>
      have hc : c ≠ ':' := fun h => hk (by simp [h])
      rw [List.cons_append, List.takeWhile_cons_of_pos (by simpa using hc)]
      rw [ih (fun hx => hk (by simp [hx]))]
  unfold parseMapLine
  rw [hdrop, htake]
  rfl

/-- Each emitted `k: v` line of a flat map parses back. -/
theorem mapM_parseMapLine (kvs : List (Str × Str)) (hk : ∀ kv ∈ kvs, ':' ∉ kv.1) :
    mapOption parseMapLine (kvs.map (fun kv => kv.1 ++ ':' :: ' ' :: kv.2)) = some kvs := by
  induction kvs with
  | nil => rfl
  | cons kv t ih =>
    obtain ⟨k, v⟩ := kv
    simp only [List.map_cons, mapOption]
    rw [parseMapLine_mk k v (hk (k, v) (by simp))]
    rw [ih (fun kv hkv => hk kv (by simp [hkv]))]

/-- Parsing the dump of a flat map with colon-free, newline-free keys and
newline-free values recovers the pairs. -/
theorem parseMapPairs_dumpMapPairs (kvs : List (Str × Str))
    (hk : ∀ kv ∈ kvs, ':' ∉ kv.1 ∧ '\n' ∉ kv.1) (hv : ∀ kv ∈ kvs, '\n' ∉ kv.2) :
    parseMapPairs (dumpMapPairs kvs) = some kvs := by
  cases kvs with
  | nil => rfl
  | cons kv t =>
    obtain ⟨k, v⟩ := kv
    have hlines : ∀ l ∈ ((k, v) :: t).map (fun kv => kv.1 ++ ':' :: ' ' :: kv.2), '\n' ∉ l := by
      intro l hl
      simp only [List.mem_map] at hl
      obtain ⟨⟨k', v'⟩, hx, rfl⟩ := hl
      intro hmem
      rcases List.mem_append.mp hmem with h1 | h2
      · exact (hk _ hx).2 h1
      · rcases List.mem_cons.mp h2 with h3 | h4
        · exact absurd h3 (by decide)
        · rcases List.mem_cons.mp h4 with h5 | h6
          · exact absurd h5 (by decide)
          · exact hv _ hx h6
    unfold dumpMapPairs
    rw [if_neg (by simp)]
    have hne2 : dumpLines (((k, v) :: t).map (fun kv => kv.1 ++ ':' :: ' ' :: kv.2)) ≠
        ['{', '}'] := by
      intro heq
      have h1 := splitLines_dumpLines _ (by simp) hlines
      rw [heq] at h1
      have h2 : splitLines ['{', '}'] = [['{', '}']] := by decide
      rw [h2] at h1
      simp only [List.map_cons] at h1
      injection h1 with h3 _
      have hcmem : ':' ∈ k ++ ':' :: ' ' :: v := by simp
      rw [← h3] at hcmem
      exact absurd hcmem (by decide)
    unfold parseMapPairs
    rw [if_neg hne2]
    rw [splitLines_dumpLines _ (by simp) hlines]
    exact mapM_parseMapLine _ (fun kv hkv => (hk kv hkv).1)

/-- The per-value conversions of a `std::map<std::string, std::size_t>`
dump all succeed. -/
theorem mapOption_mapPairs_toStr (m : List (Str × Nat)) :
    mapOption (fun kv => (convertNatStr kv.2).map (fun v => (kv.1, v))) m =
      some (m.map (fun kv => (kv.1, natToChars kv.2))) := by
  induction m with
  | nil => rfl
  | cons kv t ih =>
    obtain ⟨k, n⟩ := kv
    simp only [mapOption, List.map_cons]
    rw [ih]
    simp [convertNatStr_eq]

/-- Reading the dumped values back recovers the numbers. -/
theorem mapOption_mapPairs_fromStr (m : List (Str × Nat)) :
    mapOption (fun kv => (convertStrNat kv.2).map (fun v => (kv.1, v)))
      (m.map (fun kv => (kv.1, natToChars kv.2))) = some m := by
  induction m with
  | nil => rfl
  | cons kv t ih =>
    obtain ⟨k, n⟩ := kv
    simp only [mapOption, List.map_cons]
    rw [ih]
    simp [convertStrNat_natToChars]

/-- Round trip of the `std::map<std::string, std::size_t>` codec on the
map's key-sorted enumeration, for valid configuration keys. -/
theorem mapNat_roundtrip (m : List (Str × Nat))
    (hs : List.Pairwise (fun a b => strLt a.1 b.1 = true) m)
    (hk : ∀ kv ∈ m, isValidName kv.1 = true) :
    (mapNatToString m).bind stringToMapNat = some m := by
  unfold mapNatToString stringToMapNat
  rw [mapOption_mapPairs_toStr]
  simp only [Option.map_some', Option.some_bind]
  rw [parseMapPairs_dumpMapPairs _
    (by
      intro kv hkv
      simp only [List.mem_map] at hkv
      obtain ⟨⟨k, n⟩, hx, rfl⟩ := hkv
      exact validName_no_colon_newline k (hk _ hx))
    (by
      intro kv hkv
      simp only [List.mem_map] at hkv
      obtain ⟨⟨k, n⟩, hx, rfl⟩ := hkv
      exact natToChars_no_newline n)]
  simp only [Option.some_bind]
  rw [mapOption_mapPairs_fromStr]
  simp only [Option.map_some', Option.some.injEq]
  have h0 : List.Pairwise (fun x y => keyLt x y = true) ([] ++ m) := by
    simpa [keyLt] using hs
  simpa using foldl_insertOrdered_sorted keyLt keyLt_asymm m [] h0

/-- Round trip of the `std::unordered_set<std::size_t>` codec: any permitted
enumeration parses back to exactly the same multiset of elements. -/
theorem usetNat_roundtrip (e : List Nat) :
    (usetNatToString e).bind stringToUSetNat = some (Multiset.ofList e) := by
  unfold usetNatToString stringToUSetNat vecNatToString stringToVecNat
  rw [mapM_convertNatStr]
  simp only [Option.map_some', Option.some_bind]
  rw [parseSeq_dumpSeq _ (by
    intro x hx
    simp only [List.mem_map] at hx
    obtain ⟨n, _, rfl⟩ := hx
    exact natToChars_no_newline n)]
  simp only [Option.some_bind]
  rw [mapM_convertStrNat]
  rfl

/-- Round trip of the `std::unordered_map<std::string, std::size_t>` codec:
any permitted enumeration with valid keys parses back to exactly the same
multiset of entries. -/
theorem umapNat_roundtrip (e : List (Str × Nat))
    (hk : ∀ kv ∈ e, isValidName kv.1 = true) :
    (umapNatToString e).bind stringToUMapNat = some (Multiset.ofList e) := by
  unfold umapNatToString mapNatToString stringToUMapNat
  rw [mapOption_mapPairs_toStr]
  simp only [Option.map_some', Option.some_bind]
  rw [parseMapPairs_dumpMapPairs _
    (by
      intro kv hkv
      simp only [List.mem_map] at hkv
      obtain ⟨⟨k, n⟩, hx, rfl⟩ := hkv
      exact validName_no_colon_newline k (hk _ hx))
    (by
      intro kv hkv
      simp only [List.mem_map] at hkv
      obtain ⟨⟨k, n⟩, hx, rfl⟩ := hkv
      exact natToChars_no_newline n)]
  simp only [Option.some_bind]
  rw [mapOption_mapPairs_fromStr]
  rfl

/-- The key-value lines `tpcToString` emits. -/
def tpcKvs (c : ThreadPoolConfig) : List (Str × Str) :=
  [("max_task_count".toList, natToChars c.max_task_count),
   ("core_thread_count".toList, natToChars c.core_thread_count),
   ("max_thread_count".toList, natToChars c.max_thread_count),
   ("keep_alive_time".toList, natToChars c.keep_alive_time),
   ("monitor_interval".toList, natToChars c.monitor_interval)]

/-- `node["key"]` finds a matching head entry. -/
theorem yamlFindKey_cons_eq (k v : Str) (rest : List (Str × Str)) (key : Str)
    (h : (k == key) = true) : yamlFindKey ((k, v) :: rest) key = some v := by
  simp [yamlFindKey, List.find?, h]

/-- `node["key"]` skips a non-matching head entry. -/
theorem yamlFindKey_cons_ne (k v : Str) (rest : List (Str × Str)) (key : Str)
    (h : (k == key) = false) : yamlFindKey ((k, v) :: rest) key = yamlFindKey rest key := by
  simp [yamlFindKey, List.find?, h]

/-- Parsing the record dump yields the five emitted lines. -/
theorem tpcToString_parse (c : ThreadPoolConfig) :
    parseMapPairs (tpcToString c) = some (tpcKvs c) := by
  unfold tpcToString
  apply parseMapPairs_dumpMapPairs
  · intro kv hkv
    simp only [List.mem_cons, List.not_mem_nil, or_false] at hkv
    rcases hkv with rfl | rfl | rfl | rfl | rfl <;> refine ⟨?_, ?_⟩ <;> dsimp only <;> decide
  · intro kv hkv
    simp only [List.mem_cons, List.not_mem_nil, or_false] at hkv
    rcases hkv with rfl | rfl | rfl | rfl | rfl <;> exact natToChars_no_newline _

/-- Round trip of the `ThreadPoolConfig` codec: the five serialized fields
are recovered and `enable_dynamic_scaling` takes the defaulted `true`; the
result equals the original under the record's `operator==`. -/
theorem tpc_roundtrip (c : ThreadPoolConfig) :
    stringToTpc (tpcToString c) =
      some { max_task_count := c.max_task_count, core_thread_count := c.core_thread_count,
             max_thread_count := c.max_thread_count, keep_alive_time := c.keep_alive_time,
             monitor_interval := c.monitor_interval, enable_dynamic_scaling := true } ∧
    ∀ c', stringToTpc (tpcToString c) = some c' → tpcEq c' c = true := by
  have hfind1 : yamlFindKey (tpcKvs c) "max_task_count".toList =
      some (natToChars c.max_task_count) := by
    unfold tpcKvs
    rw [yamlFindKey_cons_eq _ _ _ _ (by decide)]
  have hfind2 : yamlFindKey (tpcKvs c) "core_thread_count".toList =
      some (natToChars c.core_thread_count) := by
    unfold tpcKvs
    rw [yamlFindKey_cons_ne _ _ _ _ (by decide), yamlFindKey_cons_eq _ _ _ _ (by decide)]
  have hfind3 : yamlFindKey (tpcKvs c) "max_thread_count".toList =
      some (natToChars c.max_thread_count) := by
    unfold tpcKvs
    rw [yamlFindKey_cons_ne _ _ _ _ (by decide), yamlFindKey_cons_ne _ _ _ _ (by decide),
      yamlFindKey_cons_eq _ _ _ _ (by decide)]
  have hfind4 : yamlFindKey (tpcKvs c) "keep_alive_time".toList =
      some (natToChars c.keep_alive_time) := by
    unfold tpcKvs
    rw [yamlFindKey_cons_ne _ _ _ _ (by decide), yamlFindKey_cons_ne _ _ _ _ (by decide),
      yamlFindKey_cons_ne _ _ _ _ (by decide), yamlFindKey_cons_eq _ _ _ _ (by decide)]
  have hfind5 : yamlFindKey (tpcKvs c) "monitor_interval".toList =
      some (natToChars c.monitor_interval) := by
    unfold tpcKvs
    rw [yamlFindKey_cons_ne _ _ _ _ (by decide), yamlFindKey_cons_ne _ _ _ _ (by decide),
      yamlFindKey_cons_ne _ _ _ _ (by decide), yamlFindKey_cons_ne _ _ _ _ (by decide),
      yamlFindKey_cons_eq _ _ _ _ (by decide)]
  have hmain : stringToTpc (tpcToString c) =
      some { max_task_count := c.max_task_count, core_thread_count := c.core_thread_count,
             max_thread_count := c.max_thread_count, keep_alive_time := c.keep_alive_time,
             monitor_interval := c.monitor_interval, enable_dynamic_scaling := true } := by
    unfold stringToTpc
    rw [tpcToString_parse]
    simp only [Option.bind_eq_bind', Option.some_bind', hfind1, hfind2, hfind3, hfind4,
      hfind5, asSizeT, convertStrNat_natToChars]
    rfl
  refine ⟨hmain, fun c' hc' => ?_⟩
  rw [hmain] at hc'
  injection hc' with h1
  subst h1
  simp [tpcEq]

/-- **C2 (counterexample).** The default scalar codec reads strings back
with `operator>>` and demands the whole buffer consumed, so a string
containing whitespace fails the round trip: for `"a b"`, `to_string`
already throws (extraction stops at the space and `!ss.eof()` holds). -/
theorem C2_counterexample_string_space :
    convertStrStr ['a', ' ', 'b'] = none ∧
    (convertStrStr ['a', ' ', 'b']).bind convertStrStr ≠ some ['a', ' ', 'b'] := by
  constructor <;> decide

/-- **C2 (amended).** `from_string(to_string(v)) == v` holds for unsigned
integral scalars; for strings exactly when the string is a single non-empty
whitespace-free token (a whitespace-containing or empty string fails); and
elementwise for the container and record codecs over such scalars:
sequences (`vector`/`list`) of integrals, `set` on its sorted enumeration,
string-keyed `map` on its key-sorted enumeration with valid configuration
keys, the unordered variants up to multiset equality of their (arbitrary)
enumerations, and `ThreadPoolConfig` under its `operator==` (the
non-serialized `enable_dynamic_scaling` reverts to its default). -/
theorem C2_codec_roundtrip :
    (∀ n : Nat, (convertNatStr n).bind convertStrNat = some n) ∧
    (∀ s : Str, isPlainToken s = true → (convertStrStr s).bind convertStrStr = some s) ∧
    (∀ (s : Str) (c : Char), c ∈ s → isSpaceChar c = true →
        (convertStrStr s).bind convertStrStr ≠ some s) ∧
    (∀ v : List Nat, (vecNatToString v).bind stringToVecNat = some v) ∧
    (∀ l : List Nat, List.Pairwise (· < ·) l →
        (setNatToString l).bind stringToSetNat = some l) ∧
    (∀ m : List (Str × Nat), List.Pairwise (fun a b => strLt a.1 b.1 = true) m →
        (∀ kv ∈ m, isValidName kv.1 = true) →
        (mapNatToString m).bind stringToMapNat = some m) ∧
    (∀ e : List Nat, (usetNatToString e).bind stringToUSetNat = some (Multiset.ofList e)) ∧
    (∀ e : List (Str × Nat), (∀ kv ∈ e, isValidName kv.1 = true) →
        (umapNatToString e).bind stringToUMapNat = some (Multiset.ofList e)) ∧
    (∀ c : ThreadPoolConfig, ∃ c', stringToTpc (tpcToString c) = some c' ∧
        tpcEq c' c = true) := by
  refine ⟨?_, ?_, ?_, ?_, ?_, ?_, ?_, ?_, ?_⟩
  · intro n
    rw [convertNatStr_eq]
    simpa using convertStrNat_natToChars n
  · intro s h
    rw [convertStrStr_plain s h]
    simpa using convertStrStr_plain s h
  · exact convertStrStr_ws_fails
  · exact vecNat_roundtrip
  · exact setNat_roundtrip
  · exact mapNat_roundtrip
  · exact usetNat_roundtrip
  · exact umapNat_roundtrip
  · intro c
    exact ⟨_, (tpc_roundtrip c).1, (tpc_roundtrip c).2 _ (tpc_roundtrip c).1⟩

/-- Witness for C2 (amended) at concrete values of each guarded kind. -/
theorem C2_codec_roundtrip_witness :
    (convertStrStr ['a', 'b']).bind convertStrStr = some ['a', 'b'] ∧
    (convertStrStr ['a', ' ', 'b']).bind convertStrStr ≠ some ['a', ' ', 'b'] ∧
    (setNatToString [1, 2]).bind stringToSetNat = some [1, 2] ∧
    (mapNatToString [(['a'], 3)]).bind stringToMapNat = some [(['a'], 3)] ∧
    (umapNatToString [(['a'], 3)]).bind stringToUMapNat =
      some (Multiset.ofList [(['a'], 3)]) := by
  have h := C2_codec_roundtrip
  exact ⟨h.2.1 ['a', 'b'] (by decide),
         h.2.2.1 ['a', ' ', 'b'] ' ' (by decide) (by decide),
         h.2.2.2.2.1 [1, 2] (by decide),
         h.2.2.2.2.2.1 [(['a'], 3)] (by decide) (by decide),
         h.2.2.2.2.2.2.2.1 [(['a'], 3)] (by decide)⟩

end Velox
